import Mathlib

/-!
Shallow embedding of the kubeconfig-sync reconciliation core
(`src/main/catalog-sources/kubeconfig-sync.source.ts`,
`src/common/catalog-entity-registry.ts`) of marcbachmann/lens.

JavaScript `Map` / mobx `ObservableMap` objects are modelled as
insertion-ordered association lists `List (κ × α)`:
`Map.set` replaces the value in place when the key exists and appends
otherwise; `Map.delete` removes the entry; iteration is list order.
-/

namespace KubeSync

/-- `Map.get`: value of the first entry with the given key. -/
def lookupKey {κ α : Type} [DecidableEq κ] (l : List (κ × α)) (k : κ) : Option α :=
  match l with
  | [] => none
  | (k', v) :: rest => if k' = k then some v else lookupKey rest k

/-- `Map.has`. -/
def containsKey {κ α : Type} [DecidableEq κ] (l : List (κ × α)) (k : κ) : Bool :=
  match l with
  | [] => false
  | (k', _) :: rest => k' = k || containsKey rest k

/-- `Map.delete`: removes the first entry with the given key. -/
def eraseKey {κ α : Type} [DecidableEq κ] (l : List (κ × α)) (k : κ) : List (κ × α) :=
  match l with
  | [] => []
  | (k', v) :: rest => if k' = k then rest else (k', v) :: eraseKey rest k

/-- `Map.set` on an existing key: replace the value, keep the position. -/
def replaceValue {κ α : Type} [DecidableEq κ] (l : List (κ × α)) (k : κ) (v : α) :
    List (κ × α) :=
  match l with
  | [] => []
  | (k', v') :: rest =>
    if k' = k then (k, v) :: rest else (k', v') :: replaceValue rest k v

/-- `Map.set`: last write wins for the value, first insertion fixes the slot. -/
def jsSet {κ α : Type} [DecidableEq κ] (l : List (κ × α)) (k : κ) (v : α) :
    List (κ × α) :=
  if containsKey l k then replaceValue l k v else l ++ [(k, v)]

/-- Keys of the map, in iteration order. -/
def keysOf {κ α : Type} (l : List (κ × α)) : List κ :=
  l.map Prod.fst

@[simp] theorem lookupKey_nil {κ α : Type} [DecidableEq κ] (k : κ) :
    lookupKey ([] : List (κ × α)) k = none := rfl

@[simp] theorem lookupKey_cons {κ α : Type} [DecidableEq κ] (k' k : κ) (v : α) (rest : List (κ × α)) :
    lookupKey ((k', v) :: rest) k = if k' = k then some v else lookupKey rest k := rfl

@[simp] theorem containsKey_nil {κ α : Type} [DecidableEq κ] (k : κ) :
    containsKey ([] : List (κ × α)) k = false := rfl

@[simp] theorem containsKey_cons {κ α : Type} [DecidableEq κ] (k' k : κ) (v : α) (rest : List (κ × α)) :
    containsKey ((k', v) :: rest) k = (decide (k' = k) || containsKey rest k) := rfl

@[simp] theorem keysOf_nil {κ α : Type} : keysOf ([] : List (κ × α)) = [] := rfl

@[simp] theorem keysOf_cons {κ α : Type} [DecidableEq κ] (p : κ × α) (rest : List (κ × α)) :
    keysOf (p :: rest) = p.1 :: keysOf rest := rfl

theorem containsKey_iff_mem_keys {κ α : Type} [DecidableEq κ] (l : List (κ × α)) (k : κ) :
    containsKey l k = true ↔ k ∈ keysOf l := by
  induction l with
  | nil => simp
  | cons p rest ih =>
    cases p with
    | mk k' v =>
      simp only [containsKey_cons, keysOf_cons, List.mem_cons, Bool.or_eq_true,
        decide_eq_true_eq, ih]
      constructor
      · rintro (h | h)
        · exact Or.inl h.symm
        · exact Or.inr h
      · rintro (h | h)
        · exact Or.inl h.symm
        · exact Or.inr h

theorem lookupKey_isSome_iff_contains {κ α : Type} [DecidableEq κ] (l : List (κ × α)) (k : κ) :
    (lookupKey l k).isSome = containsKey l k := by
  induction l with
  | nil => rfl
  | cons p rest ih =>
    cases p with
    | mk k' v =>
      by_cases h : k' = k <;> simp [h, ih]

theorem lookupKey_eq_none_of_not_contains {κ α : Type} [DecidableEq κ] (l : List (κ × α)) (k : κ)
    (h : containsKey l k = false) : lookupKey l k = none := by
  have := lookupKey_isSome_iff_contains l k
  rw [h] at this
  exact Option.not_isSome_iff_eq_none.mp (by simp [this])

theorem lookupKey_eraseKey_ne {κ α : Type} [DecidableEq κ] (l : List (κ × α)) (k k' : κ)
    (h : k ≠ k') : lookupKey (eraseKey l k) k' = lookupKey l k' := by
  induction l with
  | nil => rfl
  | cons p rest ih =>
    cases p with
    | mk k₀ v =>
      by_cases hk : k₀ = k
      · subst hk
        simp [eraseKey, fun hh : k₀ = k' => h hh]
      · have hne : ¬(k' = k) := fun hh => h hh.symm
        by_cases hk' : k₀ = k' <;> simp [eraseKey, hk, hk', ih, hne]

theorem keys_eraseKey_sublist {κ α : Type} [DecidableEq κ] (l : List (κ × α)) (k : κ) :
    (keysOf (eraseKey l k)).Sublist (keysOf l) := by
  induction l with
  | nil => simp [eraseKey]
  | cons p rest ih =>
    cases p with
    | mk k₀ v =>
      by_cases hk : k₀ = k
      · simp [eraseKey, hk]
      · simpa [eraseKey, hk] using ih.cons₂ k₀

theorem nodup_keys_eraseKey {κ α : Type} [DecidableEq κ] (l : List (κ × α)) (k : κ)
    (h : (keysOf l).Nodup) : (keysOf (eraseKey l k)).Nodup :=
  (keys_eraseKey_sublist l k).nodup h

theorem lookupKey_eraseKey_self {κ α : Type} [DecidableEq κ] (l : List (κ × α)) (k : κ)
    (h : (keysOf l).Nodup) : lookupKey (eraseKey l k) k = none := by
  induction l with
  | nil => rfl
  | cons p rest ih =>
    cases p with
    | mk k₀ v =>
      simp only [keysOf_cons, List.nodup_cons] at h
      by_cases hk : k₀ = k
      · subst hk
        simp only [eraseKey, if_pos rfl]
        exact lookupKey_eq_none_of_not_contains rest k₀ (by
          by_contra hc
          exact h.1 ((containsKey_iff_mem_keys rest k₀).mp (by
            cases hcontains : containsKey rest k₀
            · exact absurd hcontains hc
            · rfl)))
      · simp [eraseKey, hk, ih h.2]

theorem contains_eraseKey_ne {κ α : Type} [DecidableEq κ] (l : List (κ × α)) (k k' : κ)
    (h : k ≠ k') : containsKey (eraseKey l k) k' = containsKey l k' := by
  have h1 := lookupKey_isSome_iff_contains (eraseKey l k) k'
  have h2 := lookupKey_isSome_iff_contains l k'
  rw [lookupKey_eraseKey_ne l k k' h] at h1
  rw [h2] at h1
  exact h1.symm

end KubeSync

namespace KubeSync

/-- One config produced by `splitConfig (loadConfigFromString ...)`: it
carries its `currentContext` name and whether `validateKubeConfig` accepts
it (validation looks at the config's own content, so duplicate names may
validate differently). -/
structure KubeContext where
  currentContext : String
  valid : Bool
  deriving DecidableEq, Repr

/-- The buffer handed to `computeDiff`: either the whole-buffer parse
(`loadConfigFromString` + `splitConfig`) succeeds with a list of split
configs, or it throws. -/
inductive Buffer where
  | malformed : Buffer
  | wellFormed : List KubeContext → Buffer
  deriving DecidableEq, Repr

/-- The model built per valid context: `{ id: uuid.v4(), kubeConfigPath,
contextName }`. The fresh uuid is modelled by a counter threaded through
the pass. -/
structure Model where
  id : Nat
  kubeConfigPath : String
  contextName : String
  deriving DecidableEq, Repr

/-- A diagnostic emitted by the pass (the `logger.debug`/`logger.warn`
calls that record per-context and per-pass failures). -/
inductive LogEntry where
  | validationFailure (filePath : String) (context : String)
  | clusterCreationFailure (filePath : String) (context : String)
  | diffFailure (filePath : String)
  deriving DecidableEq, Repr

/-- `configsToModels`: filter the split configs through
`validateKubeConfig` (logging each failure) and map the survivors to
models with freshly generated ids. Returns the models, the diagnostics,
and the next fresh id. -/
def configsToModels (configs : List KubeContext) (filePath : String) (nextId : Nat) :
    List Model × List LogEntry × Nat :=
  match configs with
  | [] => ([], [], nextId)
  | c :: rest =>
    if c.valid then
      let (ms, logs, n') := configsToModels rest filePath (nextId + 1)
      (⟨nextId, filePath, c.currentContext⟩ :: ms, logs, n')
    else
      let (ms, logs, n') := configsToModels rest filePath nextId
      (ms, LogEntry.validationFailure filePath c.currentContext :: logs, n')

/-- `new Map(rawModels.map(m => [m.contextName, m]))`: successive
`Map.set` calls, so the last model for a duplicated name wins. -/
def buildModelMap (models : List Model) : List (String × Model) :=
  models.foldl (fun acc m => jsSet acc m.contextName m) []

/-- A `RootSourceValue` `[Cluster, CatalogEntity]`: `recordId` stands for
the identity of the tuple (and of the `Cluster` object it owns), `model`
for the model currently held by the cluster (`updateModel` swaps it while
preserving `recordId`). -/
structure EntityRecord where
  recordId : Nat
  model : Model
  deriving DecidableEq, Repr

/-- Observable calls made by a pass on the cluster-connection
collaborator: `cluster.disconnect()`, and a `new Cluster(model)` attempt
(`success := whether the constructed cluster had an apiUrl`). -/
inductive Event where
  | disconnect (recordId : Nat)
  | construct (contextName : String) (success : Bool)
  deriving DecidableEq, Repr

/-- First loop of `computeDiff`: walk the current `source` entries in
iteration order; an entry whose name is absent from the model map is
disconnected and deleted, an entry whose name is present is updated in
place (identity kept) and its name deleted from the model map. Returns
the kept entries (in order), the events, and the leftover model map. -/
def diffExisting (source : List (String × EntityRecord))
    (models : List (String × Model)) :
    List (String × EntityRecord) × List Event × List (String × Model) :=
  match source with
  | [] => ([], [], models)
  | (contextName, value) :: rest =>
    match lookupKey models contextName with
    | none =>
      let (kept, evs, rem) := diffExisting rest models
      (kept, Event.disconnect value.recordId :: evs, rem)
    | some model =>
      let (kept, evs, rem) := diffExisting rest (eraseKey models contextName)
      ((contextName, { value with model := model }) :: kept, evs, rem)

/-- Second loop of `computeDiff`: for each leftover model attempt
`new Cluster(model)`; `apiOk` is the external outcome (whether the
constructed cluster has an `apiUrl` for that context). Failures are
logged and skipped; successes are appended to the source keyed by
context name. `recordSeed` generates the identity of each new tuple. -/
def addNewClusters (apiOk : String → Bool) (filePath : String)
    (remaining : List (String × Model)) (recordSeed : Nat) :
    List (String × EntityRecord) × List Event × List LogEntry × Nat :=
  match remaining with
  | [] => ([], [], [], recordSeed)
  | (contextName, model) :: rest =>
    if apiOk contextName then
      let (added, evs, logs, seed') := addNewClusters apiOk filePath rest (recordSeed + 1)
      ((contextName, ⟨recordSeed, model⟩) :: added,
        Event.construct contextName true :: evs, logs, seed')
    else
      let (added, evs, logs, seed') := addNewClusters apiOk filePath rest recordSeed
      (added, Event.construct contextName false :: evs,
        LogEntry.clusterCreationFailure filePath contextName :: logs, seed')

/-- Result of one `computeDiff` call: the unit's map afterwards, the
cluster-collaborator events, the diagnostics, and the fresh-id counters. -/
structure DiffResult where
  map : List (String × EntityRecord)
  events : List Event
  logs : List LogEntry
  nextId : Nat
  recordSeed : Nat
  deriving DecidableEq, Repr

/-- `computeDiff(buf, source, port, filePath)`: on whole-buffer parse
failure the catch block logs a warning and runs `source.clear()` —
nothing else. Otherwise: build the model map, diff against the existing
entries, then construct clusters for the leftover models. -/
def computeDiff (apiOk : String → Bool) (buf : Buffer)
    (source : List (String × EntityRecord)) (filePath : String)
    (nextId recordSeed : Nat) : DiffResult :=
  match buf with
  | Buffer.malformed =>
    ⟨[], [], [LogEntry.diffFailure filePath], nextId, recordSeed⟩
  | Buffer.wellFormed kubeconfigs =>
    let (rawModels, logs₁, nextId') := configsToModels kubeconfigs filePath nextId
    let models := buildModelMap rawModels
    let (kept, evs₁, remaining) := diffExisting source models
    let (added, evs₂, logs₂, seed') := addNewClusters apiOk filePath remaining recordSeed
    ⟨kept ++ added, evs₁ ++ evs₂, logs₁ ++ logs₂, nextId', seed'⟩

/-- Names of the configs that pass validation, in parse order. -/
def validNames (configs : List KubeContext) : List String :=
  (configs.filter (fun c => c.valid)).map KubeContext.currentContext

end KubeSync

namespace KubeSync

/-- `CatalogEntityRegistry` (`src/common/catalog-entity-registry.ts`):
`sources` maps a source id to an `IComputedValue<CatalogEntity[]>`. A
computed value is modelled as a function from an ambient world `σ` (the
observable state it derives from) to the current collection. -/
structure CatalogEntityRegistry (σ α : Type) where
  sources : List (String × (σ → List α))

/-- `addComputedSource(id, source)`: `this.sources.set(id, source)`. -/
def addComputedSource {σ α : Type} (r : CatalogEntityRegistry σ α)
    (id : String) (source : σ → List α) : CatalogEntityRegistry σ α :=
  ⟨jsSet r.sources id source⟩

/-- `removeSource(id)`: `this.sources.delete(id)`. -/
def removeSource {σ α : Type} (r : CatalogEntityRegistry σ α) (id : String) :
    CatalogEntityRegistry σ α :=
  ⟨eraseKey r.sources id⟩

/-- `get items()`: `Array.from(this.sources.values()).flatMap(v => v.get())`,
evaluated against the current world. -/
def items {σ α : Type} (r : CatalogEntityRegistry σ α) (world : σ) : List α :=
  (r.sources.map (fun p => p.2 world)).flatten

/-- Spec-side description of the aggregate: the concatenation of every
registered source's current collection, written as a direct recursion to
compare with `items`. -/
def concatSources {σ α : Type} (l : List (String × (σ → List α))) (world : σ) :
    List α :=
  match l with
  | [] => []
  | (_, f) :: rest => f world ++ concatSources rest world

/-- `getItemsForApiKind(apiVersion, kind)`: exact-match filter over
`items`; entities are abstracted by a classifying function. -/
def getItemsForApiKind {σ α : Type} (r : CatalogEntityRegistry σ α)
    (isKind : α → Bool) (world : σ) : List α :=
  (items r world).filter isKind

/-- State of the `KubeconfigSyncManager` singleton together with the
units it has spawned. `sources` is the manager's observable map
`filePath → changeSet`; a change set is identified by the `Nat` handed
out at creation. `watchers` records whether each unit's chokidar watcher
is still running, `unitMaps` each unit's `RootSource` contents (both live
beyond the manager map: dropping the map entry does not destroy them).
`disconnects` accumulates every `disconnect()` call ever made on a
record's cluster. -/
structure ManagerState where
  sources : List (String × Nat)
  registrySources : List (String × Nat)
  watchers : List (Nat × Bool)
  unitMaps : List (Nat × List (String × EntityRecord))
  disconnects : List Nat
  syncing : Bool
  subscribed : Bool
  nextUnit : Nat
  deriving DecidableEq, Repr

/-- `getSyncName(file)`. -/
def getSyncName (file : String) : String := "lens:kube-sync:" ++ file

/-- `startNewSync(filePath, port)`: no-op when a sync for the path exists;
otherwise `watchFileChanges` spawns a watcher and a fresh `RootSource`,
the change set is stored in `sources`, and the derived source is
registered with the catalog registry under `getSyncName(filePath)`. -/
def startNewSync (filePath : String) (s : ManagerState) : ManagerState :=
  if containsKey s.sources filePath then s
  else
    { s with
      sources := jsSet s.sources filePath s.nextUnit
      registrySources := jsSet s.registrySources (getSyncName filePath) s.nextUnit
      watchers := jsSet s.watchers s.nextUnit true
      unitMaps := jsSet s.unitMaps s.nextUnit []
      nextUnit := s.nextUnit + 1 }

/-- `stopOldSync(filePath)`: no-op when no sync for the path exists;
otherwise `this.sources.delete(filePath)` and
`catalogEntityRegistry.removeSource(this.getSyncName(filePath))`. The
stored change-set disposer is dropped without being invoked, so the
watcher, the unit's map and its records are left untouched. -/
def stopOldSync (filePath : String) (s : ManagerState) : ManagerState :=
  if containsKey s.sources filePath then
    { s with
      sources := eraseKey s.sources filePath
      registrySources := eraseKey s.registrySources (getSyncName filePath) }
  else s

/-- A change notification from the watch-list store
(`kubeconfigSyncStore.files.observe`). -/
inductive WatchListChange where
  | add (path : String)
  | delete (path : String)
  deriving DecidableEq, Repr

/-- The observer installed by `startSync`: `add` starts a new sync,
`delete` stops the old one. -/
def handleSyncFileChange (change : WatchListChange) (s : ManagerState) :
    ManagerState :=
  match change with
  | WatchListChange.add path => startNewSync path s
  | WatchListChange.delete path => stopOldSync path s

/-- `startSync(port)`: returns immediately when `this.syncing` is set;
otherwise starts a sync per stored file, sets `syncing`, and subscribes
to the watch-list change stream. -/
def startSync (files : List String) (s : ManagerState) : ManagerState :=
  if s.syncing then s
  else
    let s' := files.foldl (fun st f => startNewSync f st) s
    { s' with syncing := true, subscribed := true }

/-- `stopSync()`: unsubscribe from the watch list, stop every sync in the
manager's map, clear `syncing`. -/
def stopSync (s : ManagerState) : ManagerState :=
  let s₀ := { s with subscribed := false }
  let s₁ := (keysOf s₀.sources).foldl (fun st f => stopOldSync f st) s₀
  { s₁ with syncing := false }

/-- Run one completed read's `computeDiff` against the unit belonging to
`filePath`, recording the pass's map outcome and its `disconnect()`
calls in the manager-level log. -/
def applyUnitDiff (apiOk : String → Bool) (buf : Buffer) (filePath : String)
    (nextId recordSeed : Nat) (s : ManagerState) : ManagerState :=
  match lookupKey s.sources filePath with
  | none => s
  | some u =>
    match lookupKey s.unitMaps u with
    | none => s
    | some m =>
      let d := computeDiff apiOk buf m filePath nextId recordSeed
      { s with
        unitMaps := jsSet s.unitMaps u d.map
        disconnects := s.disconnects ++ d.events.filterMap (fun e =>
          match e with
          | Event.disconnect r => some r
          | Event.construct _ _ => none) }

/-- One occurrence inside a unit's watcher/read lifecycle
(`watchFileChanges` + `diffChangedConfig`): a chokidar `change`/`add`
event (cancel the previous read, start a new one), a chokidar `unlink`
event (cancel the previous read), or a read stream's `end`/`close`
callback for the read started as the `i`-th. -/
inductive UnitEvent where
  | watcherFire
  | watcherUnlink
  | streamEnd (i : Nat)
  | streamClose (i : Nat)
  deriving DecidableEq, Repr

/-- Per-unit read state: how many reads were started, each read's
`closed` flag (reads that never started count as closed), and the list
of reads whose buffer reached `computeDiff`, in order. -/
structure DifferState where
  started : Nat
  closedFlag : Nat → Bool
  applied : List Nat

/-- Fresh unit: no reads yet. -/
def initDiffer : DifferState := ⟨0, fun _ => true, []⟩

/-- One step of the unit's event handling. `watcherFire` runs
`stopPrevious?.()` (the disposer sets the previous read's `closed`) and
then starts `diffChangedConfig` for a new read; `watcherUnlink` only runs
`stopPrevious?.()`; a stream `close` sets that read's `closed`; a stream
`end` runs `computeDiff` unless the read's `closed` flag is set. -/
def stepUnit (s : DifferState) (e : UnitEvent) : DifferState :=
  match e with
  | UnitEvent.watcherFire =>
    ⟨s.started + 1,
      fun j => if j = s.started then false
        else if j + 1 = s.started then true
        else s.closedFlag j,
      s.applied⟩
  | UnitEvent.watcherUnlink =>
    ⟨s.started, fun j => if j + 1 = s.started then true else s.closedFlag j,
      s.applied⟩
  | UnitEvent.streamClose i =>
    ⟨s.started, fun j => if j = i then true else s.closedFlag j, s.applied⟩
  | UnitEvent.streamEnd i =>
    if s.closedFlag i then s else ⟨s.started, s.closedFlag, s.applied ++ [i]⟩

/-- The unit state after a sequence of events. -/
def runUnit (evts : List UnitEvent) : DifferState :=
  evts.foldl stepUnit initDiffer

end KubeSync

namespace KubeSync

theorem lookupKey_mem {κ α : Type} [DecidableEq κ] {l : List (κ × α)} {k : κ} {v : α}
    (h : lookupKey l k = some v) : (k, v) ∈ l := by
  induction l with
  | nil => simp at h
  | cons p rest ih =>
    cases p with
    | mk k₀ v₀ =>
      by_cases hk : k₀ = k
      · subst hk
        rw [lookupKey_cons, if_pos rfl] at h
        injection h with h
        subst h
        exact List.mem_cons_self _ _
      · simp only [lookupKey_cons, if_neg hk] at h
        exact List.mem_cons_of_mem _ (ih h)

theorem lookupKey_append {κ α : Type} [DecidableEq κ] (l₁ l₂ : List (κ × α)) (k : κ) :
    lookupKey (l₁ ++ l₂) k =
      match lookupKey l₁ k with
      | some v => some v
      | none => lookupKey l₂ k := by
  induction l₁ with
  | nil => simp
  | cons p rest ih =>
    cases p with
    | mk k₀ v₀ =>
      by_cases hk : k₀ = k
      · simp [hk]
      · simpa [hk] using ih

theorem keysOf_append {κ α : Type} [DecidableEq κ] (l₁ l₂ : List (κ × α)) :
    keysOf (l₁ ++ l₂) = keysOf l₁ ++ keysOf l₂ := by
  simp [keysOf]

theorem keysOf_replaceValue {κ α : Type} [DecidableEq κ] (l : List (κ × α)) (k : κ) (v : α)
    (h : containsKey l k = true) : keysOf (replaceValue l k v) = keysOf l := by
  induction l with
  | nil => rfl
  | cons p rest ih =>
    cases p with
    | mk k₀ v₀ =>
      by_cases hk : k₀ = k
      · subst hk
        simp [replaceValue]
      · simp only [containsKey_cons, Bool.or_eq_true, decide_eq_true_eq] at h
        rcases h with h | h
        · exact absurd h hk
        · simp [replaceValue, hk, ih h]

theorem lookupKey_replaceValue {κ α : Type} [DecidableEq κ] (l : List (κ × α)) (k k' : κ)
    (v : α) (h : containsKey l k = true) :
    lookupKey (replaceValue l k v) k' = if k = k' then some v else lookupKey l k' := by
  induction l with
  | nil => simp at h
  | cons p rest ih =>
    cases p with
    | mk k₀ v₀ =>
      by_cases hk : k₀ = k
      · subst hk
        by_cases hk' : k₀ = k' <;> simp [replaceValue, hk']
      · simp only [containsKey_cons, Bool.or_eq_true, decide_eq_true_eq] at h
        rcases h with h | h
        · exact absurd h hk
        · by_cases hk' : k₀ = k'
          · subst hk'
            have : ¬(k = k₀) := fun hh => hk hh.symm
            simp [replaceValue, hk, this]
          · simp [replaceValue, hk, hk', ih h]

theorem lookupKey_jsSet {κ α : Type} [DecidableEq κ] (l : List (κ × α)) (k k' : κ) (v : α) :
    lookupKey (jsSet l k v) k' = if k = k' then some v else lookupKey l k' := by
  unfold jsSet
  by_cases hc : containsKey l k
  · simp [hc, lookupKey_replaceValue l k k' v hc]
  · simp only [hc, Bool.false_eq_true, if_false]
    rw [lookupKey_append]
    by_cases hk : k = k'
    · subst hk
      rw [lookupKey_eq_none_of_not_contains l k (by simpa using hc)]
      simp
    · cases hl : lookupKey l k' <;> simp [hl, hk]

theorem containsKey_jsSet {κ α : Type} [DecidableEq κ] (l : List (κ × α)) (k k' : κ) (v : α) :
    containsKey (jsSet l k v) k' = (decide (k = k') || containsKey l k') := by
  rw [← lookupKey_isSome_iff_contains, ← lookupKey_isSome_iff_contains,
    lookupKey_jsSet]
  by_cases hk : k = k' <;> simp [hk]

theorem nodup_keys_jsSet {κ α : Type} [DecidableEq κ] (l : List (κ × α)) (k : κ) (v : α)
    (h : (keysOf l).Nodup) : (keysOf (jsSet l k v)).Nodup := by
  unfold jsSet
  by_cases hc : containsKey l k
  · rw [if_pos hc, keysOf_replaceValue l k v hc]
    exact h
  · rw [if_neg hc, keysOf_append]
    refine List.Nodup.append h (List.nodup_singleton k) ?_
    intro x hx hx'
    have hxk : x = k := by simpa [keysOf] using hx'
    subst hxk
    exact absurd ((containsKey_iff_mem_keys l x).mpr hx) (by simpa using hc)

theorem eraseKey_append_fresh {κ α : Type} [DecidableEq κ] (l : List (κ × α)) (k : κ) (v : α)
    (h : containsKey l k = false) : eraseKey (l ++ [(k, v)]) k = l := by
  induction l with
  | nil => simp [eraseKey]
  | cons p rest ih =>
    cases p with
    | mk k₀ v₀ =>
      simp only [containsKey_cons, Bool.or_eq_false_iff, decide_eq_false_iff_not] at h
      simp [eraseKey, h.1, ih h.2]

/-- The last element of a list satisfying a predicate (the value a chain
of `Map.set` calls leaves behind for a key). -/
def lastWith {α : Type} (l : List α) (p : α → Bool) : Option α :=
  match l with
  | [] => none
  | x :: rest =>
    match lastWith rest p with
    | some y => some y
    | none => if p x then some x else none

theorem lastWith_eq_none_iff {α : Type} (l : List α) (p : α → Bool) :
    lastWith l p = none ↔ ∀ x ∈ l, p x = false := by
  induction l with
  | nil => simp [lastWith]
  | cons x rest ih =>
    constructor
    · intro hc z hz
      have hrest : lastWith rest p = none := by
        simp only [lastWith] at hc
        cases hlast : lastWith rest p with
        | some y => rw [hlast] at hc; cases hc
        | none => rfl
      rcases List.mem_cons.mp hz with hz | hz
      · subst hz
        by_cases hp : p z = true
        · exfalso
          simp only [lastWith, hrest, hp, if_pos rfl] at hc
          cases hc
        · simpa using hp
      · exact ih.mp hrest z hz
    · intro hall
      simp only [lastWith]
      rw [ih.mpr (fun z hz => hall z (List.mem_cons_of_mem _ hz))]
      simp [hall x (List.mem_cons_self _ _)]

/-- Number of occurrences of an event in a pass's event list. -/
def countEvent (evs : List Event) (e : Event) : Nat :=
  match evs with
  | [] => 0
  | x :: rest => (if x = e then 1 else 0) + countEvent rest e

theorem countEvent_append (a b : List Event) (e : Event) :
    countEvent (a ++ b) e = countEvent a e + countEvent b e := by
  induction a with
  | nil => simp [countEvent]
  | cons x rest ih => simp [countEvent, ih]; omega

end KubeSync

namespace KubeSync

/-- Spec-side restatement of model building: drop the invalid configs
first, then turn every remaining config into a model, assigning fresh
ids in order. -/
def assignIds (configs : List KubeContext) (filePath : String) (nextId : Nat) :
    List Model :=
  match configs with
  | [] => []
  | c :: rest =>
    ⟨nextId, filePath, c.currentContext⟩ :: assignIds rest filePath (nextId + 1)

theorem configsToModels_eq (cfgs : List KubeContext) (fp : String) (n : Nat) :
    configsToModels cfgs fp n =
      (assignIds (cfgs.filter (fun c => c.valid)) fp n,
       (cfgs.filter (fun c => !c.valid)).map
         (fun c => LogEntry.validationFailure fp c.currentContext),
       n + (cfgs.filter (fun c => c.valid)).length) := by
  induction cfgs generalizing n with
  | nil => simp [configsToModels, assignIds]
  | cons c rest ih =>
    by_cases hv : c.valid
    · simp [configsToModels, hv, ih, List.filter_cons, assignIds]
      try omega
    · have hv' : c.valid = false := by simpa using hv
      simp [configsToModels, hv', ih, List.filter_cons]

theorem assignIds_names (cfgs : List KubeContext) (fp : String) (n : Nat) :
    (assignIds cfgs fp n).map Model.contextName =
      cfgs.map KubeContext.currentContext := by
  induction cfgs generalizing n with
  | nil => rfl
  | cons c rest ih => simp [assignIds, ih]

theorem rawModels_names (cfgs : List KubeContext) (fp : String) (n : Nat) :
    ((configsToModels cfgs fp n).1).map Model.contextName = validNames cfgs := by
  rw [configsToModels_eq]
  simp [assignIds_names, validNames]

theorem lastWith_mem {α : Type} {l : List α} {p : α → Bool} {y : α}
    (h : lastWith l p = some y) : y ∈ l ∧ p y = true := by
  induction l with
  | nil => cases h
  | cons x rest ih =>
    simp only [lastWith] at h
    cases hlast : lastWith rest p with
    | some z =>
      rw [hlast] at h
      injection h with h
      subst h
      obtain ⟨hm, hp⟩ := ih hlast
      exact ⟨List.mem_cons_of_mem _ hm, hp⟩
    | none =>
      rw [hlast] at h
      by_cases hp : p x = true
      · rw [if_pos hp] at h
        injection h with h
        subst h
        exact ⟨List.mem_cons_self _ _, hp⟩
      · rw [if_neg hp] at h
        cases h

theorem lookup_foldl_jsSet (ms : List Model) (acc : List (String × Model)) (n : String) :
    lookupKey (ms.foldl (fun a m => jsSet a m.contextName m) acc) n =
      match lastWith ms (fun m => decide (m.contextName = n)) with
      | some m => some m
      | none => lookupKey acc n := by
  induction ms generalizing acc with
  | nil => simp [lastWith]
  | cons m rest ih =>
    simp only [List.foldl_cons, lastWith]
    rw [ih]
    cases hlast : lastWith rest (fun m => decide (m.contextName = n)) with
    | some y => rfl
    | none =>
      rw [lookupKey_jsSet]
      by_cases hm : m.contextName = n <;> simp [hm]

theorem buildModelMap_lookup (ms : List Model) (n : String) :
    lookupKey (buildModelMap ms) n =
      lastWith ms (fun m => decide (m.contextName = n)) := by
  unfold buildModelMap
  rw [lookup_foldl_jsSet]
  cases hlast : lastWith ms (fun m => decide (m.contextName = n)) <;> simp

theorem nodup_keys_foldl_jsSet (ms : List Model) (acc : List (String × Model))
    (h : (keysOf acc).Nodup) :
    (keysOf (ms.foldl (fun a m => jsSet a m.contextName m) acc)).Nodup := by
  induction ms generalizing acc with
  | nil => exact h
  | cons m rest ih => exact ih _ (nodup_keys_jsSet _ _ _ h)

theorem buildModelMap_nodup (ms : List Model) : (keysOf (buildModelMap ms)).Nodup :=
  nodup_keys_foldl_jsSet ms [] (by simp [keysOf])

theorem buildModelMap_contains (ms : List Model) (n : String) :
    containsKey (buildModelMap ms) n = true ↔ n ∈ ms.map Model.contextName := by
  rw [← lookupKey_isSome_iff_contains, buildModelMap_lookup]
  cases hlast : lastWith ms (fun m => decide (m.contextName = n)) with
  | some y =>
    obtain ⟨hm, hp⟩ := lastWith_mem hlast
    simp only [Option.isSome_some, true_iff]
    exact List.mem_map.mpr ⟨y, hm, by simpa using hp⟩
  | none =>
    simp only [Option.isSome_none, Bool.false_eq_true, false_iff]
    intro hmem
    obtain ⟨y, hy, hyn⟩ := List.mem_map.mp hmem
    have := (lastWith_eq_none_iff ms _).mp hlast y hy
    rw [hyn] at this
    simp at this

end KubeSync

namespace KubeSync

theorem diffExisting_nil (ms : List (String × Model)) :
    diffExisting [] ms = ([], [], ms) := rfl

theorem diffExisting_cons_none (k : String) (r : EntityRecord)
    (rest : List (String × EntityRecord)) (ms : List (String × Model))
    (h : lookupKey ms k = none) :
    diffExisting ((k, r) :: rest) ms =
      ((diffExisting rest ms).1,
       Event.disconnect r.recordId :: (diffExisting rest ms).2.1,
       (diffExisting rest ms).2.2) := by
  simp only [diffExisting, h]

theorem diffExisting_cons_some (k : String) (r : EntityRecord)
    (rest : List (String × EntityRecord)) (ms : List (String × Model)) (m : Model)
    (h : lookupKey ms k = some m) :
    diffExisting ((k, r) :: rest) ms =
      ((k, { r with model := m }) :: (diffExisting rest (eraseKey ms k)).1,
       (diffExisting rest (eraseKey ms k)).2.1,
       (diffExisting rest (eraseKey ms k)).2.2) := by
  simp only [diffExisting, h]

/-- The entries kept by the first `computeDiff` loop: exactly the current
entries whose name is still in the model map, updated in place. -/
theorem diffExisting_kept (src : List (String × EntityRecord))
    (ms : List (String × Model)) (hsrc : (keysOf src).Nodup) :
    (diffExisting src ms).1 =
      src.filterMap (fun p =>
        (lookupKey ms p.1).map (fun m => (p.1, { p.2 with model := m }))) := by
  induction src generalizing ms with
  | nil => simp [diffExisting_nil]
  | cons p rest ih =>
    rcases p with ⟨k, r⟩
    simp only [keysOf_cons, List.nodup_cons] at hsrc
    cases hl : lookupKey ms k with
    | none =>
      rw [diffExisting_cons_none k r rest ms hl]
      simp only [List.filterMap_cons, hl, Option.map_none']
      exact ih ms hsrc.2
    | some m =>
      rw [diffExisting_cons_some k r rest ms m hl]
      simp only [List.filterMap_cons, hl, Option.map_some']
      congr 1
      rw [ih (eraseKey ms k) hsrc.2]
      apply List.filterMap_congr
      intro q hq
      have hne : k ≠ q.1 := by
        intro hkq
        exact hsrc.1 (hkq ▸ (List.mem_map.mpr ⟨q, hq, rfl⟩))
      rw [lookupKey_eraseKey_ne ms k q.1 hne]

/-- The events of the first `computeDiff` loop: one `disconnect` per
entry whose name left the config. -/
theorem diffExisting_events (src : List (String × EntityRecord))
    (ms : List (String × Model)) (hsrc : (keysOf src).Nodup) :
    (diffExisting src ms).2.1 =
      src.filterMap (fun p =>
        if containsKey ms p.1 then none
        else some (Event.disconnect p.2.recordId)) := by
  induction src generalizing ms with
  | nil => simp [diffExisting_nil]
  | cons p rest ih =>
    rcases p with ⟨k, r⟩
    simp only [keysOf_cons, List.nodup_cons] at hsrc
    cases hl : lookupKey ms k with
    | none =>
      have hc : containsKey ms k = false := by
        have := lookupKey_isSome_iff_contains ms k
        rw [hl] at this
        simpa using this.symm
      rw [diffExisting_cons_none k r rest ms hl]
      simp only [List.filterMap_cons, hc, Bool.false_eq_true, if_false]
      rw [ih ms hsrc.2]
    | some m =>
      have hc : containsKey ms k = true := by
        have := lookupKey_isSome_iff_contains ms k
        rw [hl] at this
        simpa using this.symm
      rw [diffExisting_cons_some k r rest ms m hl]
      simp only [List.filterMap_cons, hc, if_pos]
      rw [ih (eraseKey ms k) hsrc.2]
      apply List.filterMap_congr
      intro q hq
      have hne : k ≠ q.1 := by
        intro hkq
        exact hsrc.1 (hkq ▸ (List.mem_map.mpr ⟨q, hq, rfl⟩))
      rw [contains_eraseKey_ne ms k q.1 hne]

/-- The model map left over after the first `computeDiff` loop: the
original map minus every name present in the source. -/
theorem diffExisting_remaining (src : List (String × EntityRecord))
    (ms : List (String × Model)) (hsrc : (keysOf src).Nodup)
    (hms : (keysOf ms).Nodup) (n : String) :
    lookupKey (diffExisting src ms).2.2 n =
      if containsKey src n then none else lookupKey ms n := by
  induction src generalizing ms with
  | nil => simp [diffExisting_nil]
  | cons p rest ih =>
    rcases p with ⟨k, r⟩
    simp only [keysOf_cons, List.nodup_cons] at hsrc
    have hkrest : containsKey rest k = false := by
      cases hck : containsKey rest k
      · rfl
      · exact absurd ((containsKey_iff_mem_keys rest k).mp hck) hsrc.1
    cases hl : lookupKey ms k with
    | none =>
      rw [diffExisting_cons_none k r rest ms hl, ih ms hsrc.2 hms]
      by_cases hkn : k = n
      · subst hkn
        simp [hkrest, hl]
      · simp [hkn]
    | some m =>
      rw [diffExisting_cons_some k r rest ms m hl,
        ih (eraseKey ms k) hsrc.2 (nodup_keys_eraseKey ms k hms)]
      by_cases hkn : k = n
      · subst hkn
        simp [hkrest, lookupKey_eraseKey_self ms k hms]
      · simp only [containsKey_cons, decide_eq_true_eq, hkn, decide_eq_false_iff_not,
          not_false_eq_true, Bool.false_or]
        rw [lookupKey_eraseKey_ne ms k n hkn]
        simp [hkn]

/-- The leftover model map's keys come from the original model map. -/
theorem diffExisting_remaining_sublist (src : List (String × EntityRecord))
    (ms : List (String × Model)) :
    (keysOf (diffExisting src ms).2.2).Sublist (keysOf ms) := by
  induction src generalizing ms with
  | nil => simp [diffExisting_nil]
  | cons p rest ih =>
    rcases p with ⟨k, r⟩
    cases hl : lookupKey ms k with
    | none =>
      rw [diffExisting_cons_none k r rest ms hl]
      exact ih ms
    | some m =>
      rw [diffExisting_cons_some k r rest ms m hl]
      exact (ih (eraseKey ms k)).trans (keys_eraseKey_sublist ms k)

end KubeSync

namespace KubeSync

theorem addNew_nil (apiOk : String → Bool) (fp : String) (seed : Nat) :
    addNewClusters apiOk fp [] seed = ([], [], [], seed) := rfl

theorem addNew_cons_ok (apiOk : String → Bool) (fp : String) (k : String) (m : Model)
    (rest : List (String × Model)) (seed : Nat) (h : apiOk k = true) :
    addNewClusters apiOk fp ((k, m) :: rest) seed =
      ((k, ⟨seed, m⟩) :: (addNewClusters apiOk fp rest (seed + 1)).1,
       Event.construct k true :: (addNewClusters apiOk fp rest (seed + 1)).2.1,
       (addNewClusters apiOk fp rest (seed + 1)).2.2.1,
       (addNewClusters apiOk fp rest (seed + 1)).2.2.2) := by
  simp only [addNewClusters, h, if_pos]

theorem addNew_cons_fail (apiOk : String → Bool) (fp : String) (k : String) (m : Model)
    (rest : List (String × Model)) (seed : Nat) (h : apiOk k = false) :
    addNewClusters apiOk fp ((k, m) :: rest) seed =
      ((addNewClusters apiOk fp rest seed).1,
       Event.construct k false :: (addNewClusters apiOk fp rest seed).2.1,
       LogEntry.clusterCreationFailure fp k :: (addNewClusters apiOk fp rest seed).2.2.1,
       (addNewClusters apiOk fp rest seed).2.2.2) := by
  simp only [addNewClusters, h, Bool.false_eq_true, if_false]

/-- Keys inserted by the second `computeDiff` loop: the leftover names
whose cluster construction succeeded. -/
theorem addNew_keys (apiOk : String → Bool) (fp : String)
    (rem : List (String × Model)) (seed : Nat) :
    keysOf (addNewClusters apiOk fp rem seed).1 =
      (keysOf rem).filter apiOk := by
  induction rem generalizing seed with
  | nil => simp [addNew_nil]
  | cons p rest ih =>
    rcases p with ⟨k, m⟩
    cases h : apiOk k with
    | true => simp [addNew_cons_ok apiOk fp k m rest seed h, List.filter_cons, h, ih]
    | false => simp [addNew_cons_fail apiOk fp k m rest seed h, List.filter_cons, h, ih]

/-- Events of the second `computeDiff` loop: one construction attempt per
leftover model, succeeding exactly when the cluster gets an `apiUrl`. -/
theorem addNew_events (apiOk : String → Bool) (fp : String)
    (rem : List (String × Model)) (seed : Nat) :
    (addNewClusters apiOk fp rem seed).2.1 =
      rem.map (fun p => Event.construct p.1 (apiOk p.1)) := by
  induction rem generalizing seed with
  | nil => simp [addNew_nil]
  | cons p rest ih =>
    rcases p with ⟨k, m⟩
    cases h : apiOk k with
    | true => simp [addNew_cons_ok apiOk fp k m rest seed h, h, ih]
    | false => simp [addNew_cons_fail apiOk fp k m rest seed h, h, ih]

/-- A record inserted by the second loop holds the model the leftover map
holds for its name. -/
theorem addNew_model (apiOk : String → Bool) (fp : String)
    (rem : List (String × Model)) (seed : Nat) (n : String) (r : EntityRecord)
    (h : lookupKey (addNewClusters apiOk fp rem seed).1 n = some r) :
    apiOk n = true ∧ lookupKey rem n = some r.model := by
  induction rem generalizing seed with
  | nil => simp [addNew_nil] at h
  | cons p rest ih =>
    rcases p with ⟨k, m⟩
    cases hok : apiOk k with
    | true =>
      rw [addNew_cons_ok apiOk fp k m rest seed hok] at h
      by_cases hk : k = n
      · subst hk
        rw [lookupKey_cons, if_pos rfl] at h
        injection h with h
        subst h
        exact ⟨hok, by simp⟩
      · rw [lookupKey_cons, if_neg hk] at h
        obtain ⟨h1, h2⟩ := ih (seed + 1) h
        exact ⟨h1, by simpa [hk] using h2⟩
    | false =>
      rw [addNew_cons_fail apiOk fp k m rest seed hok] at h
      obtain ⟨h1, h2⟩ := ih seed h
      have hk : k ≠ n := fun hk => by
        subst hk
        rw [h1] at hok
        cases hok
      exact ⟨h1, by simpa [hk] using h2⟩

theorem keys_filterMap_sublist {α β : Type} (l : List (String × α))
    (f : (String × α) → Option (String × β))
    (hf : ∀ p q, f p = some q → q.1 = p.1) :
    (keysOf (l.filterMap f)).Sublist (keysOf l) := by
  induction l with
  | nil => simp
  | cons p rest ih =>
    cases hp : f p with
    | none => simpa [List.filterMap_cons, hp] using ih.trans (List.sublist_cons_self _ _)
    | some q =>
      have := hf p q hp
      simp only [List.filterMap_cons, hp, keysOf_cons, this]
      exact ih.cons₂ p.1

end KubeSync

namespace KubeSync

theorem computeDiff_malformed (apiOk : String → Bool)
    (source : List (String × EntityRecord)) (fp : String) (n seed : Nat) :
    computeDiff apiOk Buffer.malformed source fp n seed =
      ⟨[], [], [LogEntry.diffFailure fp], n, seed⟩ := rfl

theorem computeDiff_wellFormed (apiOk : String → Bool) (cfgs : List KubeContext)
    (source : List (String × EntityRecord)) (fp : String) (n seed : Nat) :
    computeDiff apiOk (Buffer.wellFormed cfgs) source fp n seed =
      ⟨(diffExisting source (buildModelMap (configsToModels cfgs fp n).1)).1 ++
         (addNewClusters apiOk fp
           (diffExisting source (buildModelMap (configsToModels cfgs fp n).1)).2.2 seed).1,
       (diffExisting source (buildModelMap (configsToModels cfgs fp n).1)).2.1 ++
         (addNewClusters apiOk fp
           (diffExisting source (buildModelMap (configsToModels cfgs fp n).1)).2.2 seed).2.1,
       (configsToModels cfgs fp n).2.1 ++
         (addNewClusters apiOk fp
           (diffExisting source (buildModelMap (configsToModels cfgs fp n).1)).2.2 seed).2.2.1,
       (configsToModels cfgs fp n).2.2,
       (addNewClusters apiOk fp
         (diffExisting source (buildModelMap (configsToModels cfgs fp n).1)).2.2 seed).2.2.2⟩ := by
  simp only [computeDiff]

/-- A record looked up in the first loop's kept entries carries the model
the model map holds for its name. -/
theorem diffExisting_lookup_model (src : List (String × EntityRecord))
    (ms : List (String × Model)) (hsrc : (keysOf src).Nodup) (n : String)
    (r : EntityRecord) (h : lookupKey (diffExisting src ms).1 n = some r) :
    lookupKey ms n = some r.model := by
  induction src generalizing ms with
  | nil => simp [diffExisting_nil] at h
  | cons p rest ih =>
    rcases p with ⟨k, r₀⟩
    simp only [keysOf_cons, List.nodup_cons] at hsrc
    cases hl : lookupKey ms k with
    | none =>
      rw [diffExisting_cons_none k r₀ rest ms hl] at h
      exact ih ms hsrc.2 h
    | some m =>
      rw [diffExisting_cons_some k r₀ rest ms m hl] at h
      by_cases hk : k = n
      · subst hk
        rw [lookupKey_cons, if_pos rfl] at h
        injection h with h
        subst h
        exact hl
      · rw [lookupKey_cons, if_neg hk] at h
        have := ih (eraseKey ms k) hsrc.2 h
        rwa [lookupKey_eraseKey_ne ms k n hk] at this

/-- Key-set characterization of a successful reconciliation pass: a name
is in the resulting map exactly when it names a valid context and was
either already present or had its cluster constructed successfully. -/
theorem computeDiff_mem_keys (apiOk : String → Bool) (cfgs : List KubeContext)
    (src : List (String × EntityRecord)) (fp : String) (n seed : Nat)
    (hsrc : (keysOf src).Nodup) (nm : String) :
    nm ∈ keysOf (computeDiff apiOk (Buffer.wellFormed cfgs) src fp n seed).map ↔
      nm ∈ validNames cfgs ∧ (nm ∈ keysOf src ∨ apiOk nm = true) := by
  rw [computeDiff_wellFormed]
  set ms := buildModelMap (configsToModels cfgs fp n).1 with hms
  have hmsnodup : (keysOf ms).Nodup := buildModelMap_nodup _
  have hcontains : ∀ x, containsKey ms x = true ↔ x ∈ validNames cfgs := by
    intro x
    rw [hms, buildModelMap_contains, rawModels_names]
  simp only [keysOf_append, List.mem_append]
  have hkept : nm ∈ keysOf (diffExisting src ms).1 ↔
      nm ∈ keysOf src ∧ containsKey ms nm = true := by
    rw [diffExisting_kept src ms hsrc]
    constructor
    · intro hmem
      obtain ⟨q, hq, hq1⟩ := List.mem_map.mp hmem
      obtain ⟨p, hp, hfp⟩ := List.mem_filterMap.mp hq
      cases hlk : lookupKey ms p.1 with
      | none => rw [hlk] at hfp; cases hfp
      | some m =>
        rw [hlk] at hfp
        injection hfp with hfp
        have hq1' : q.1 = p.1 := by rw [← hfp]
        have hnm : p.1 = nm := by rw [← hq1, hq1']
        subst hnm
        constructor
        · exact List.mem_map.mpr ⟨p, hp, rfl⟩
        · rw [← lookupKey_isSome_iff_contains, hlk]
          rfl
    · rintro ⟨hmem, hcont⟩
      obtain ⟨p, hp, hp1⟩ := List.mem_map.mp hmem
      cases hlk : lookupKey ms p.1 with
      | none =>
        rw [← hp1, ← lookupKey_isSome_iff_contains, hlk] at hcont
        simp at hcont
      | some m =>
        refine List.mem_map.mpr ⟨(p.1, { p.2 with model := m }), ?_, hp1⟩
        exact List.mem_filterMap.mpr ⟨p, hp, by rw [hlk]; rfl⟩
  have hrem : ∀ x, containsKey (diffExisting src ms).2.2 x = true ↔
      (containsKey src x = false ∧ containsKey ms x = true) := by
    intro x
    rw [← lookupKey_isSome_iff_contains, diffExisting_remaining src ms hsrc hmsnodup]
    cases hcs : containsKey src x with
    | true => simp
    | false => simp [lookupKey_isSome_iff_contains]
  have hadded : nm ∈ keysOf (addNewClusters apiOk fp (diffExisting src ms).2.2 seed).1 ↔
      (containsKey src nm = false ∧ containsKey ms nm = true ∧ apiOk nm = true) := by
    rw [addNew_keys, List.mem_filter, ← containsKey_iff_mem_keys, hrem nm]
    constructor
    · rintro ⟨⟨h1, h2⟩, h3⟩
      exact ⟨h1, h2, h3⟩
    · rintro ⟨h1, h2, h3⟩
      exact ⟨⟨h1, h2⟩, h3⟩
  rw [hkept, hadded]
  rw [← hcontains nm]
  have hsrckeys : nm ∈ keysOf src ↔ containsKey src nm = true :=
    (containsKey_iff_mem_keys src nm).symm
  rw [hsrckeys]
  constructor
  · rintro (⟨h1, h2⟩ | ⟨h1, h2, h3⟩)
    · exact ⟨h2, Or.inl h1⟩
    · exact ⟨h2, Or.inr h3⟩
  · rintro ⟨h1, h2 | h2⟩
    · exact Or.inl ⟨h2, h1⟩
    · cases hcs : containsKey src nm with
      | true => exact Or.inl ⟨rfl, h1⟩
      | false => exact Or.inr ⟨rfl, h1, h2⟩

/-- A reconciliation pass keeps the unit map's keys unique. -/
theorem computeDiff_nodup_keys (apiOk : String → Bool) (cfgs : List KubeContext)
    (src : List (String × EntityRecord)) (fp : String) (n seed : Nat)
    (hsrc : (keysOf src).Nodup) :
    (keysOf (computeDiff apiOk (Buffer.wellFormed cfgs) src fp n seed).map).Nodup := by
  rw [computeDiff_wellFormed]
  set ms := buildModelMap (configsToModels cfgs fp n).1 with hms
  have hmsnodup : (keysOf ms).Nodup := buildModelMap_nodup _
  rw [keysOf_append]
  have hkeptsub : (keysOf (diffExisting src ms).1).Sublist (keysOf src) := by
    rw [diffExisting_kept src ms hsrc]
    apply keys_filterMap_sublist
    intro p q hpq
    cases hlk : lookupKey ms p.1 with
    | none => rw [hlk] at hpq; cases hpq
    | some m =>
      rw [hlk] at hpq
      injection hpq with hpq
      rw [← hpq]
  have haddsub : (keysOf (addNewClusters apiOk fp (diffExisting src ms).2.2 seed).1).Sublist
      (keysOf ms) := by
    rw [addNew_keys]
    exact (List.filter_sublist _).trans (diffExisting_remaining_sublist src ms)
  refine List.Nodup.append (hkeptsub.nodup hsrc) (haddsub.nodup hmsnodup) ?_
  intro x hx hx'
  have hxsrc : x ∈ keysOf src := hkeptsub.mem hx
  have hxrem : x ∈ keysOf (diffExisting src ms).2.2 := by
    rw [addNew_keys] at hx'
    exact List.mem_of_mem_filter hx'
  have hlk := diffExisting_remaining src ms hsrc hmsnodup x
  have hcx : containsKey src x = true := (containsKey_iff_mem_keys src x).mpr hxsrc
  rw [hcx, if_pos rfl] at hlk
  have := (containsKey_iff_mem_keys _ x).mpr hxrem
  rw [← lookupKey_isSome_iff_contains, hlk] at this
  cases this

/-- Any record present after a successful pass holds the model the pass's
model map assigned to its name (for new records via construction, for
kept records via `updateModel`). -/
theorem computeDiff_lookup_model (apiOk : String → Bool) (cfgs : List KubeContext)
    (src : List (String × EntityRecord)) (fp : String) (n seed : Nat)
    (hsrc : (keysOf src).Nodup) (nm : String) (r : EntityRecord)
    (h : lookupKey (computeDiff apiOk (Buffer.wellFormed cfgs) src fp n seed).map nm =
      some r) :
    lookupKey (buildModelMap (configsToModels cfgs fp n).1) nm = some r.model := by
  rw [computeDiff_wellFormed] at h
  set ms := buildModelMap (configsToModels cfgs fp n).1 with hms
  have hmsnodup : (keysOf ms).Nodup := buildModelMap_nodup _
  simp only at h
  rw [lookupKey_append] at h
  cases hk : lookupKey (diffExisting src ms).1 nm with
  | some r' =>
    rw [hk] at h
    injection h with h
    subst h
    exact diffExisting_lookup_model src ms hsrc nm _ hk
  | none =>
    rw [hk] at h
    obtain ⟨h1, h2⟩ := addNew_model apiOk fp _ seed nm r h
    have hlk := diffExisting_remaining src ms hsrc hmsnodup nm
    rw [h2] at hlk
    cases hcs : containsKey src nm with
    | true => rw [hcs, if_pos rfl] at hlk; cases hlk
    | false =>
      rw [hcs] at hlk
      simp only [Bool.false_eq_true, if_false] at hlk
      exact hlk.symm

end KubeSync

namespace KubeSync

/-- Every read except the most recently started one has its `closed` flag
set, and so do indices of reads that never started. -/
def DifferInv (s : DifferState) : Prop :=
  ∀ i, (i + 1 < s.started ∨ s.started ≤ i) → s.closedFlag i = true

theorem stepUnit_inv (s : DifferState) (e : UnitEvent) (h : DifferInv s) :
    DifferInv (stepUnit s e) := by
  cases e with
  | watcherFire =>
    intro i hi
    simp only [stepUnit] at hi ⊢
    show (if i = s.started then false
      else if i + 1 = s.started then true else s.closedFlag i) = true
    by_cases h1 : i = s.started
    · exact absurd hi (by omega)
    · rw [if_neg h1]
      by_cases h2 : i + 1 = s.started
      · rw [if_pos h2]
      · rw [if_neg h2]
        exact h i (by omega)
  | watcherUnlink =>
    intro i hi
    simp only [stepUnit] at hi ⊢
    show (if i + 1 = s.started then true else s.closedFlag i) = true
    by_cases h2 : i + 1 = s.started
    · rw [if_pos h2]
    · rw [if_neg h2]
      exact h i hi
  | streamClose j =>
    intro i hi
    simp only [stepUnit] at hi ⊢
    show (if i = j then true else s.closedFlag i) = true
    by_cases h2 : i = j
    · rw [if_pos h2]
    · rw [if_neg h2]
      exact h i hi
  | streamEnd j =>
    intro i hi
    simp only [stepUnit] at hi ⊢
    by_cases hc : s.closedFlag j
    · rw [if_pos hc] at hi ⊢
      exact h i hi
    · rw [if_neg hc] at hi ⊢
      exact h i hi

theorem runUnit_inv (evts : List UnitEvent) : DifferInv (runUnit evts) := by
  have general : ∀ (l : List UnitEvent) (s : DifferState),
      DifferInv s → DifferInv (l.foldl stepUnit s) := by
    intro l
    induction l with
    | nil => intro s hs; exact hs
    | cons e rest ih =>
      intro s hs
      exact ih _ (stepUnit_inv s e hs)
  refine general evts initDiffer ?_
  intro i _
  rfl

theorem items_eq_concatSources {σ α : Type} (l : List (String × (σ → List α)))
    (world : σ) : (l.map (fun p => p.2 world)).flatten = concatSources l world := by
  induction l with
  | nil => rfl
  | cons p rest ih =>
    rcases p with ⟨k, f⟩
    simp [concatSources, ih]

end KubeSync

namespace KubeSync

/-- C1 (counterexample): a unit map holding one record is fed a buffer
whose whole-buffer parse fails; the pass empties the map but emits no
event at all — in particular no `disconnect()` reaches the record,
because the catch block only runs `source.clear()`. -/
theorem c1_parse_failure_counterexample :
    (computeDiff (fun _ => true) Buffer.malformed
        [("ctx1", ⟨0, ⟨0, "c.yaml", "ctx1"⟩⟩)] "c.yaml" 1 1).map = [] ∧
    (computeDiff (fun _ => true) Buffer.malformed
        [("ctx1", ⟨0, ⟨0, "c.yaml", "ctx1"⟩⟩)] "c.yaml" 1 1).events = [] :=
  ⟨rfl, rfl⟩

/-- C1 (amended): when the whole-buffer parse fails, the pass aborts, a
warning is logged, and the unit's map becomes empty — but `disconnect()`
is not called on any of the records that were in the map (the pass emits
no cluster events whatsoever). -/
theorem c1_parse_failure_clears_map_without_disconnect (apiOk : String → Bool)
    (src : List (String × EntityRecord)) (fp : String) (n seed : Nat) :
    (computeDiff apiOk Buffer.malformed src fp n seed).map = [] ∧
    (computeDiff apiOk Buffer.malformed src fp n seed).events = [] ∧
    (computeDiff apiOk Buffer.malformed src fp n seed).logs =
      [LogEntry.diffFailure fp] :=
  ⟨rfl, rfl, rfl⟩

/-- The manager after `startSync(["c.yaml"])` from a fresh state. -/
def c2State0 : ManagerState :=
  startSync ["c.yaml"] ⟨[], [], [], [], [], false, false, 0⟩

/-- The manager after the watcher unit for `c.yaml` has reconciled a
buffer containing one valid context. -/
def c2State1 : ManagerState :=
  applyUnitDiff (fun _ => true) (Buffer.wellFormed [⟨"ctx1", true⟩])
    "c.yaml" 0 0 c2State0

/-- The manager after a watch-list `delete` event for `c.yaml`. -/
def c2State2 : ManagerState :=
  handleSyncFileChange (WatchListChange.delete "c.yaml") c2State1

/-- C2 (code evaluated at the failing input): before the `delete` event
the unit for `c.yaml` holds one record; `stopOldSync` removes the path
from the manager's map and unregisters the source from the registry, but
the stored change-set disposer is never invoked: the chokidar watcher is
still running, the unit's map still holds the record, and no
`disconnect()` was ever called. -/
theorem c2_delete_event_skips_teardown :
    containsKey c2State1.sources "c.yaml" = true ∧
    lookupKey c2State1.unitMaps 0 = some [("ctx1", ⟨0, ⟨0, "c.yaml", "ctx1"⟩⟩)] ∧
    containsKey c2State2.sources "c.yaml" = false ∧
    containsKey c2State2.registrySources (getSyncName "c.yaml") = false ∧
    lookupKey c2State2.watchers 0 = some true ∧
    lookupKey c2State2.unitMaps 0 = some [("ctx1", ⟨0, ⟨0, "c.yaml", "ctx1"⟩⟩)] ∧
    c2State2.disconnects = [] := by
  decide

/-- C9: `startSync` returns immediately when `this.syncing` is already
set — the state is unchanged, so no unit is created, no source is
registered, and no second watch-list subscription is added. -/
theorem c9_startSync_idempotent (files : List String) (s : ManagerState)
    (h : s.syncing = true) : startSync files s = s := by
  simp [startSync, h]

/-- An already-syncing manager state. -/
def c9State : ManagerState :=
  ⟨[("a", 0)], [(getSyncName "a", 0)], [(0, true)], [(0, [])], [], true, true, 1⟩

/-- C9 (witness): a second `startSync` on a concrete already-syncing
manager is a no-op. -/
theorem c9_startSync_idempotent_witness :
    c9State.syncing = true ∧ startSync ["b"] c9State = c9State :=
  ⟨rfl, c9_startSync_idempotent ["b"] c9State rfl⟩

/-- C7: the registry's `items` getter equals the concatenation of every
currently registered source's current collection (it is recomputed from
the world on demand, never stored); and registering a source under a
fresh id and then removing that id returns the registry — and hence the
aggregate — to its prior value. -/
theorem c7_items_concat_and_roundtrip {σ α : Type} (r : CatalogEntityRegistry σ α)
    (id : String) (f : σ → List α) (h : containsKey r.sources id = false) :
    (∀ w, items r w = concatSources r.sources w) ∧
    removeSource (addComputedSource r id f) id = r := by
  constructor
  · intro w
    exact items_eq_concatSources r.sources w
  · have herase : eraseKey (jsSet r.sources id f) id = r.sources := by
      unfold jsSet
      rw [if_neg (by simp [h]), eraseKey_append_fresh r.sources id f h]
    show CatalogEntityRegistry.mk (eraseKey (jsSet r.sources id f) id) = r
    rw [herase]

/-- A concrete registry with one source. -/
def c7Registry : CatalogEntityRegistry Unit Nat := ⟨[("a", fun _ => [1, 2])]⟩

/-- C7 (witness): the aggregate law and the register/unregister round
trip, evaluated on a concrete registry and a fresh id. -/
theorem c7_items_concat_and_roundtrip_witness :
    containsKey c7Registry.sources "b" = false ∧
    items c7Registry () = concatSources c7Registry.sources () ∧
    removeSource (addComputedSource c7Registry "b" (fun _ => [3])) "b" = c7Registry :=
  ⟨rfl,
   (c7_items_concat_and_roundtrip c7Registry "b" (fun _ => [3]) rfl).1 (),
   (c7_items_concat_and_roundtrip c7Registry "b" (fun _ => [3]) rfl).2⟩

/-- C8: `configsToModels` drops each invalid context individually,
logging a diagnostic carrying the path and the context name, and the
failure never aborts the remaining contexts: the returned models are
exactly one model per valid config, in order, with fresh sequential ids,
independent of how many invalid configs sit between them; moreover every
valid config's context name appears among the produced models. -/
theorem c8_invalid_contexts_isolated (cfgs : List KubeContext) (fp : String) (n : Nat) :
    configsToModels cfgs fp n =
      (assignIds (cfgs.filter (fun c => c.valid)) fp n,
       (cfgs.filter (fun c => !c.valid)).map
         (fun c => LogEntry.validationFailure fp c.currentContext),
       n + (cfgs.filter (fun c => c.valid)).length) ∧
    (∀ c ∈ cfgs, c.valid = true →
      c.currentContext ∈ ((configsToModels cfgs fp n).1).map Model.contextName) := by
  refine ⟨configsToModels_eq cfgs fp n, ?_⟩
  intro c hc hv
  rw [rawModels_names]
  unfold validNames
  exact List.mem_map.mpr ⟨c, List.mem_filter.mpr ⟨hc, by simp [hv]⟩, rfl⟩

/-- C8 (witness): on a concrete mixed buffer the valid sibling of an
invalid context is still turned into a model. -/
theorem c8_invalid_contexts_isolated_witness :
    (⟨"bad", false⟩ : KubeContext) ∈ [(⟨"good", true⟩ : KubeContext), ⟨"bad", false⟩] ∧
    "good" ∈ ((configsToModels [⟨"good", true⟩, ⟨"bad", false⟩] "c.yaml" 0).1).map
      Model.contextName :=
  ⟨by decide,
   (c8_invalid_contexts_isolated [⟨"good", true⟩, ⟨"bad", false⟩] "c.yaml" 0).2
     ⟨"good", true⟩ (by decide) rfl⟩

end KubeSync

namespace KubeSync

/-- C4: after a reconciliation pass over a buffer that parses into the
config set `cfgs`, the map's key set consists exactly of the context
names that passed validation and were not skipped on construction
failure — a valid name is present iff it was already in the map (kept
and updated in place, no re-construction) or its fresh cluster
construction succeeded (`apiOk`); valid names that were new and failed
construction, and all invalid names, are absent. -/
theorem c4_key_set_after_pass (apiOk : String → Bool) (cfgs : List KubeContext)
    (src : List (String × EntityRecord)) (fp : String) (n seed : Nat)
    (hsrc : (keysOf src).Nodup) (nm : String) :
    nm ∈ keysOf (computeDiff apiOk (Buffer.wellFormed cfgs) src fp n seed).map ↔
      nm ∈ validNames cfgs ∧ (nm ∈ keysOf src ∨ apiOk nm = true) :=
  computeDiff_mem_keys apiOk cfgs src fp n seed hsrc nm

/-- C4 (witness): concrete pass with a stale entry, one valid
constructible context, one invalid context and one valid context whose
construction fails. -/
theorem c4_key_set_after_pass_witness :
    (keysOf [("old", (⟨5, ⟨9, "c.yaml", "old"⟩⟩ : EntityRecord))]).Nodup ∧
    ("ctx1" ∈ keysOf (computeDiff (fun nm => decide (nm = "ctx1"))
        (Buffer.wellFormed [⟨"ctx1", true⟩, ⟨"ctxI", false⟩, ⟨"ctxF", true⟩])
        [("old", ⟨5, ⟨9, "c.yaml", "old"⟩⟩)] "c.yaml" 0 0).map ↔
      "ctx1" ∈ validNames [⟨"ctx1", true⟩, ⟨"ctxI", false⟩, ⟨"ctxF", true⟩] ∧
        ("ctx1" ∈ keysOf [("old", (⟨5, ⟨9, "c.yaml", "old"⟩⟩ : EntityRecord))] ∨
          decide ("ctx1" = "ctx1") = true)) :=
  ⟨by decide,
   c4_key_set_after_pass (fun nm => decide (nm = "ctx1"))
     [⟨"ctx1", true⟩, ⟨"ctxI", false⟩, ⟨"ctxF", true⟩]
     [("old", ⟨5, ⟨9, "c.yaml", "old"⟩⟩)] "c.yaml" 0 0 (by decide) "ctx1"⟩

/-- C5: in any interleaving of watcher events and read completions for
one unit, a read whose `closed` flag is set (it was cancelled or
superseded) contributes nothing when its completion arrives — the state
is untouched; and whenever a completion does mutate anything, the
completing read is exactly the most recently started one and was never
cancelled. -/
theorem c5_only_latest_read_applies (evts : List UnitEvent) (i : Nat) :
    ((runUnit evts).closedFlag i = true →
      stepUnit (runUnit evts) (UnitEvent.streamEnd i) = runUnit evts) ∧
    ((stepUnit (runUnit evts) (UnitEvent.streamEnd i)).applied ≠
        (runUnit evts).applied →
      i + 1 = (runUnit evts).started ∧ (runUnit evts).closedFlag i = false) := by
  constructor
  · intro h
    simp [stepUnit, h]
  · intro hne
    cases hc : (runUnit evts).closedFlag i with
    | true => exact absurd (by simp [stepUnit, hc]) hne
    | false =>
      refine ⟨?_, rfl⟩
      by_contra hni
      have hinv := runUnit_inv evts i (by omega)
      rw [hc] at hinv
      cases hinv

/-- C5 (witness): with two overlapping reads the first read's `end` is a
complete no-op, and a sole uncancelled read that does apply is the most
recently started one. -/
theorem c5_only_latest_read_applies_witness :
    ((runUnit [UnitEvent.watcherFire, UnitEvent.watcherFire]).closedFlag 0 = true ∧
     stepUnit (runUnit [UnitEvent.watcherFire, UnitEvent.watcherFire])
         (UnitEvent.streamEnd 0) =
       runUnit [UnitEvent.watcherFire, UnitEvent.watcherFire]) ∧
    ((stepUnit (runUnit [UnitEvent.watcherFire]) (UnitEvent.streamEnd 0)).applied ≠
       (runUnit [UnitEvent.watcherFire]).applied ∧
     0 + 1 = (runUnit [UnitEvent.watcherFire]).started ∧
     (runUnit [UnitEvent.watcherFire]).closedFlag 0 = false) :=
  ⟨⟨rfl,
    (c5_only_latest_read_applies [UnitEvent.watcherFire, UnitEvent.watcherFire] 0).1 rfl⟩,
   ⟨by decide,
    (c5_only_latest_read_applies [UnitEvent.watcherFire] 0).2 (by decide)⟩⟩

end KubeSync

namespace KubeSync

theorem countEvent_map_construct (l : List (String × Model)) (apiOk : String → Bool)
    (rid : Nat) :
    countEvent (l.map (fun p => Event.construct p.1 (apiOk p.1)))
      (Event.disconnect rid) = 0 := by
  induction l with
  | nil => rfl
  | cons p rest ih => simp [countEvent, ih]

theorem count_disconnect_none (src : List (String × EntityRecord))
    (ms : List (String × Model)) (rid : Nat)
    (h : ∀ p ∈ src, p.2.recordId ≠ rid) :
    countEvent (src.filterMap (fun p =>
      if containsKey ms p.1 then none
      else some (Event.disconnect p.2.recordId))) (Event.disconnect rid) = 0 := by
  induction src with
  | nil => rfl
  | cons p rest ih =>
    have hrest := ih (fun q hq => h q (List.mem_cons_of_mem _ hq))
    cases hcm : containsKey ms p.1 with
    | true => simpa [List.filterMap_cons, hcm] using hrest
    | false =>
      have hne : p.2.recordId ≠ rid := h p (List.mem_cons_self _ _)
      simp [List.filterMap_cons, hcm, countEvent, hne, hrest]

theorem count_disconnect_found (src : List (String × EntityRecord))
    (ms : List (String × Model)) (nm : String) (r : EntityRecord)
    (hids : (src.map (fun p => p.2.recordId)).Nodup)
    (hfound : lookupKey src nm = some r) :
    countEvent (src.filterMap (fun p =>
        if containsKey ms p.1 then none
        else some (Event.disconnect p.2.recordId))) (Event.disconnect r.recordId) =
      if containsKey ms nm then 0 else 1 := by
  induction src with
  | nil => cases hfound
  | cons p rest ih =>
    rcases p with ⟨k, r₀⟩
    simp only [List.map_cons, List.nodup_cons] at hids
    by_cases hk : k = nm
    · subst hk
      rw [lookupKey_cons, if_pos rfl] at hfound
      injection hfound with hfound
      subst hfound
      have hzero : countEvent (rest.filterMap (fun p =>
          if containsKey ms p.1 then none
          else some (Event.disconnect p.2.recordId))) (Event.disconnect r₀.recordId) = 0 := by
        apply count_disconnect_none
        intro q hq hqe
        exact hids.1 (hqe ▸ List.mem_map.mpr ⟨q, hq, rfl⟩)
      cases hcm : containsKey ms k with
      | true => simpa [List.filterMap_cons, hcm] using hzero
      | false => simp [List.filterMap_cons, hcm, countEvent, hzero]
    · rw [lookupKey_cons, if_neg hk] at hfound
      have hrmem : r.recordId ∈ rest.map (fun p => p.2.recordId) :=
        List.mem_map.mpr ⟨(nm, r), lookupKey_mem hfound, rfl⟩
      have hne : r₀.recordId ≠ r.recordId := fun he => hids.1 (he ▸ hrmem)
      have hrec := ih hids.2 hfound
      cases hcm : containsKey ms k with
      | true => simpa [List.filterMap_cons, hcm] using hrec
      | false =>
        simp only [List.filterMap_cons, hcm, Bool.false_eq_true, if_false, countEvent]
        rw [hrec]
        simp [hne]

/-- C3 (amended): on a reconciliation pass whose whole-buffer parse
succeeds, a record that is removed from the unit's map (its context name
vanished or was invalid in this pass) receives exactly one
`disconnect()` — emitted at the point of its removal in the diff loop —
and a record that stays in the map receives none. (The parse-failure
path violates this invariant: `source.clear()` removes records with
zero disconnect calls; see the counterexample.) -/
theorem c3_disconnect_once_before_removal (apiOk : String → Bool)
    (cfgs : List KubeContext) (src : List (String × EntityRecord)) (fp : String)
    (n seed : Nat) (nm : String) (r : EntityRecord)
    (hkeys : (keysOf src).Nodup)
    (hids : (src.map (fun p => p.2.recordId)).Nodup)
    (hfound : lookupKey src nm = some r) :
    (containsKey (computeDiff apiOk (Buffer.wellFormed cfgs) src fp n seed).map nm
        = false →
      countEvent (computeDiff apiOk (Buffer.wellFormed cfgs) src fp n seed).events
        (Event.disconnect r.recordId) = 1) ∧
    (containsKey (computeDiff apiOk (Buffer.wellFormed cfgs) src fp n seed).map nm
        = true →
      countEvent (computeDiff apiOk (Buffer.wellFormed cfgs) src fp n seed).events
        (Event.disconnect r.recordId) = 0) := by
  have hnmsrc : nm ∈ keysOf src :=
    List.mem_map.mpr ⟨(nm, r), lookupKey_mem hfound, rfl⟩
  have hcount : countEvent
      (computeDiff apiOk (Buffer.wellFormed cfgs) src fp n seed).events
      (Event.disconnect r.recordId) =
      if containsKey (buildModelMap (configsToModels cfgs fp n).1) nm then 0 else 1 := by
    rw [computeDiff_wellFormed]
    simp only []
    rw [countEvent_append, diffExisting_events src _ hkeys, addNew_events,
      countEvent_map_construct, count_disconnect_found src _ nm r hids hfound]
    omega
  have hvalid : containsKey (buildModelMap (configsToModels cfgs fp n).1) nm = true ↔
      nm ∈ validNames cfgs := by
    rw [buildModelMap_contains, rawModels_names]
  have hmemkeys := computeDiff_mem_keys apiOk cfgs src fp n seed hkeys nm
  have hmember : containsKey
      (computeDiff apiOk (Buffer.wellFormed cfgs) src fp n seed).map nm =
      containsKey (buildModelMap (configsToModels cfgs fp n).1) nm := by
    cases hc : containsKey (buildModelMap (configsToModels cfgs fp n).1) nm with
    | true =>
      have hmem := hmemkeys.mpr ⟨hvalid.mp hc, Or.inl hnmsrc⟩
      exact (containsKey_iff_mem_keys _ nm).mpr hmem
    | false =>
      cases hd : containsKey
          (computeDiff apiOk (Buffer.wellFormed cfgs) src fp n seed).map nm with
      | true =>
        have hmem := hmemkeys.mp ((containsKey_iff_mem_keys _ nm).mp hd)
        rw [hvalid.mpr hmem.1] at hc
        cases hc
      | false => rfl
  constructor
  · intro habs
    rw [hmember] at habs
    rw [hcount, habs, if_neg (by simp)]
  · intro hpres
    rw [hmember] at hpres
    rw [hcount, hpres, if_pos rfl]

/-- C3 (counterexample): two connected records sit in a unit's map; a
malformed buffer arrives; both records are removed (the map is cleared)
yet neither record's cluster receives a single `disconnect()` call. -/
theorem c3_clear_removes_without_disconnect_counterexample :
    lookupKey [("ctxA", (⟨3, ⟨0, "k.yaml", "ctxA"⟩⟩ : EntityRecord)),
               ("ctxB", ⟨4, ⟨1, "k.yaml", "ctxB"⟩⟩)] "ctxA" =
      some ⟨3, ⟨0, "k.yaml", "ctxA"⟩⟩ ∧
    (computeDiff (fun _ => true) Buffer.malformed
        [("ctxA", ⟨3, ⟨0, "k.yaml", "ctxA"⟩⟩), ("ctxB", ⟨4, ⟨1, "k.yaml", "ctxB"⟩⟩)]
        "k.yaml" 0 0).map = [] ∧
    countEvent (computeDiff (fun _ => true) Buffer.malformed
        [("ctxA", ⟨3, ⟨0, "k.yaml", "ctxA"⟩⟩), ("ctxB", ⟨4, ⟨1, "k.yaml", "ctxB"⟩⟩)]
        "k.yaml" 0 0).events (Event.disconnect 3) = 0 ∧
    countEvent (computeDiff (fun _ => true) Buffer.malformed
        [("ctxA", ⟨3, ⟨0, "k.yaml", "ctxA"⟩⟩), ("ctxB", ⟨4, ⟨1, "k.yaml", "ctxB"⟩⟩)]
        "k.yaml" 0 0).events (Event.disconnect 4) = 0 := by
  decide

/-- The source map for the C3 witness: one record whose context is about
to vanish. -/
def c3Src : List (String × EntityRecord) := [("gone", ⟨7, ⟨0, "c.yaml", "gone"⟩⟩)]

/-- C3 (witness): reconciling an empty config over a map holding the
record for `gone` disconnects that record exactly once. -/
theorem c3_disconnect_once_before_removal_witness :
    (keysOf c3Src).Nodup ∧
    (c3Src.map (fun p => p.2.recordId)).Nodup ∧
    lookupKey c3Src "gone" = some ⟨7, ⟨0, "c.yaml", "gone"⟩⟩ ∧
    countEvent (computeDiff (fun _ => true) (Buffer.wellFormed []) c3Src
      "c.yaml" 0 0).events (Event.disconnect 7) = 1 :=
  ⟨by decide, by decide, by decide,
   (c3_disconnect_once_before_removal (fun _ => true) [] c3Src "c.yaml" 0 0
     "gone" ⟨7, ⟨0, "c.yaml", "gone"⟩⟩ (by decide) (by decide) (by decide)).1
     (by decide)⟩

end KubeSync

namespace KubeSync

/-- C10 (counterexample): a buffer holding two valid definitions of the
context name `dup`, reconciled over an empty map with cluster
construction failing (`new Cluster` yields no `apiUrl`): the claim's
premise holds — two valid duplicate definitions — yet the pass keeps
zero records for `dup`, not exactly one: the last definition wins the
model-map slot but is then skipped on construction failure. -/
theorem c10_zero_records_counterexample :
    2 ≤ ((([⟨"dup", true⟩, ⟨"dup", true⟩] : List KubeContext).filter
        (fun c => c.valid)).filter (fun c => decide (c.currentContext = "dup"))).length ∧
    (computeDiff (fun _ => false)
        (Buffer.wellFormed [⟨"dup", true⟩, ⟨"dup", true⟩])
        [] "c.yaml" 10 0).map = [] := by
  decide

/-- C10 (amended): when a buffer parses into two or more valid context
definitions sharing a name, the pass keeps at most one record under that
name — exactly one when the name survives the pass (it was already in
the unit's map, or cluster construction for the winning model
succeeded), and zero otherwise (a fresh duplicated name whose
construction fails is dropped entirely); any record kept under the name
is built from the last valid definition in parse order (the
`new Map(rawModels.map(...))` constructor lets later entries overwrite
earlier ones). -/
theorem c10_last_valid_definition_wins (apiOk : String → Bool)
    (cfgs : List KubeContext) (src : List (String × EntityRecord)) (fp : String)
    (n seed : Nat) (nm : String) (hsrc : (keysOf src).Nodup)
    (hdup : 2 ≤ ((cfgs.filter (fun c => c.valid)).filter
        (fun c => decide (c.currentContext = nm))).length) :
    ((keysOf (computeDiff apiOk (Buffer.wellFormed cfgs) src fp n seed).map).count nm
        = if nm ∈ keysOf src ∨ apiOk nm = true then 1 else 0) ∧
    (∀ r, lookupKey (computeDiff apiOk (Buffer.wellFormed cfgs) src fp n seed).map nm
        = some r →
      some r.model = lastWith (assignIds (cfgs.filter (fun c => c.valid)) fp n)
        (fun m => decide (m.contextName = nm))) := by
  have hvalid : nm ∈ validNames cfgs := by
    have hpos : 0 < ((cfgs.filter (fun c => c.valid)).filter
        (fun c => decide (c.currentContext = nm))).length := by omega
    obtain ⟨c, hc⟩ := List.exists_mem_of_length_pos hpos
    have hc1 := List.mem_filter.mp hc
    have hc2 : c.currentContext = nm := by simpa using hc1.2
    unfold validNames
    exact List.mem_map.mpr ⟨c, hc1.1, hc2⟩
  constructor
  · have hnodup := computeDiff_nodup_keys apiOk cfgs src fp n seed hsrc
    have hmem := computeDiff_mem_keys apiOk cfgs src fp n seed hsrc nm
    by_cases hsurv : nm ∈ keysOf src ∨ apiOk nm = true
    · rw [if_pos hsurv]
      exact List.count_eq_one_of_mem hnodup (hmem.mpr ⟨hvalid, hsurv⟩)
    · rw [if_neg hsurv]
      exact List.count_eq_zero.mpr (fun hm => hsurv ((hmem.mp hm).2))
  · intro r hr
    have h1 := computeDiff_lookup_model apiOk cfgs src fp n seed hsrc nm r hr
    rw [buildModelMap_lookup] at h1
    have h2 : (configsToModels cfgs fp n).1 =
        assignIds (cfgs.filter (fun c => c.valid)) fp n := by
      rw [configsToModels_eq]
    rw [h2] at h1
    exact h1.symm

/-- A buffer with two valid definitions of the same context name. -/
def c10Cfgs : List KubeContext := [⟨"dup", true⟩, ⟨"dup", true⟩]

/-- C10 (witness): reconciling the duplicate buffer with succeeding
construction over an empty map keeps exactly one record for `dup`,
holding the model of the second definition (fresh id `11`, assigned
after the first definition's `10`). -/
theorem c10_last_valid_definition_wins_witness :
    (keysOf ([] : List (String × EntityRecord))).Nodup ∧
    2 ≤ ((c10Cfgs.filter (fun c => c.valid)).filter
        (fun c => decide (c.currentContext = "dup"))).length ∧
    (keysOf (computeDiff (fun _ => true) (Buffer.wellFormed c10Cfgs) []
        "c.yaml" 10 0).map).count "dup" =
      (if "dup" ∈ keysOf ([] : List (String × EntityRecord)) ∨
          (fun _ => true) "dup" = true then 1 else 0) ∧
    some (⟨0, ⟨11, "c.yaml", "dup"⟩⟩ : EntityRecord).model =
      lastWith (assignIds (c10Cfgs.filter (fun c => c.valid)) "c.yaml" 10)
        (fun m => decide (m.contextName = "dup")) :=
  ⟨by decide, by decide,
   (c10_last_valid_definition_wins (fun _ => true) c10Cfgs [] "c.yaml" 10 0
     "dup" (by decide) (by decide)).1,
   (c10_last_valid_definition_wins (fun _ => true) c10Cfgs [] "c.yaml" 10 0
     "dup" (by decide) (by decide)).2 ⟨0, ⟨11, "c.yaml", "dup"⟩⟩ (by decide)⟩

end KubeSync

namespace KubeSync

theorem filterMap_some_eq_map {α β : Type} (g : α → β) (l : List α) :
    l.filterMap (fun a => some (g a)) = l.map g := by
  induction l with
  | nil => rfl
  | cons x rest ih => simp [List.filterMap_cons, ih]

/-- A pass over a map whose keys are exactly the valid names that can
survive (every key valid, every absent valid name construction-failing)
keeps every record in place with its identity, disconnects nothing, and
constructs nothing successfully. -/
theorem computeDiff_stable (apiOk : String → Bool) (cfgs : List KubeContext)
    (cur : List (String × EntityRecord)) (fp : String) (n seed : Nat)
    (hA : (keysOf cur).Nodup)
    (hB : ∀ x ∈ keysOf cur, x ∈ validNames cfgs)
    (hC : ∀ x, x ∈ validNames cfgs → x ∉ keysOf cur → apiOk x = false) :
    ((computeDiff apiOk (Buffer.wellFormed cfgs) cur fp n seed).map.map
        (fun p => (p.1, p.2.recordId)) = cur.map (fun p => (p.1, p.2.recordId))) ∧
    (∀ rid, Event.disconnect rid ∉
      (computeDiff apiOk (Buffer.wellFormed cfgs) cur fp n seed).events) ∧
    (∀ cn, Event.construct cn true ∉
      (computeDiff apiOk (Buffer.wellFormed cfgs) cur fp n seed).events) := by
  rw [computeDiff_wellFormed]
  set ms := buildModelMap (configsToModels cfgs fp n).1 with hms
  have hmsnodup : (keysOf ms).Nodup := buildModelMap_nodup _
  have hvalid : ∀ x, containsKey ms x = true ↔ x ∈ validNames cfgs := by
    intro x
    rw [hms, buildModelMap_contains, rawModels_names]
  have hin : ∀ p ∈ cur, (lookupKey ms p.1).isSome = true := by
    intro p hp
    rw [lookupKey_isSome_iff_contains]
    exact (hvalid p.1).mpr (hB p.1 (List.mem_map.mpr ⟨p, hp, rfl⟩))
  have hallfail : ∀ p ∈ (diffExisting cur ms).2.2, apiOk p.1 = false := by
    intro p hp
    have hpc : containsKey (diffExisting cur ms).2.2 p.1 = true :=
      (containsKey_iff_mem_keys _ _).mpr (List.mem_map.mpr ⟨p, hp, rfl⟩)
    rw [← lookupKey_isSome_iff_contains,
      diffExisting_remaining cur ms hA hmsnodup] at hpc
    cases hcd : containsKey cur p.1 with
    | true => rw [hcd, if_pos rfl] at hpc; cases hpc
    | false =>
      rw [hcd] at hpc
      simp only [Bool.false_eq_true, if_false] at hpc
      rw [lookupKey_isSome_iff_contains] at hpc
      have hval : p.1 ∈ validNames cfgs := (hvalid p.1).mp hpc
      have hnotin : p.1 ∉ keysOf cur := fun hmem => by
        rw [(containsKey_iff_mem_keys cur p.1).mpr hmem] at hcd
        cases hcd
      exact hC p.1 hval hnotin
  have hadded : (addNewClusters apiOk fp (diffExisting cur ms).2.2 seed).1 = [] := by
    have hkeys0 : keysOf (addNewClusters apiOk fp (diffExisting cur ms).2.2 seed).1
        = [] := by
      rw [addNew_keys]
      rw [List.filter_eq_nil_iff]
      intro a ha
      obtain ⟨p, hp, hpa⟩ := List.mem_map.mp ha
      rw [← hpa]
      simp [hallfail p hp]
    have := congrArg List.length hkeys0
    simp only [keysOf, List.length_map, List.length_nil] at this
    exact List.eq_nil_of_length_eq_zero this
  have hevs1 : (diffExisting cur ms).2.1 = [] := by
    rw [diffExisting_events cur ms hA]
    rw [List.filterMap_eq_nil_iff]
    intro p hp
    have hc : containsKey ms p.1 = true := by
      rw [← lookupKey_isSome_iff_contains]
      exact hin p hp
    simp [hc]
  have hkept : (diffExisting cur ms).1.map (fun p => (p.1, p.2.recordId)) =
      cur.map (fun p => (p.1, p.2.recordId)) := by
    rw [diffExisting_kept cur ms hA, List.map_filterMap]
    have hcongr : ∀ p ∈ cur,
        ((lookupKey ms p.1).map (fun m => (p.1, { p.2 with model := m }))).map
          (fun q => (q.1, q.2.recordId)) = some (p.1, p.2.recordId) := by
      intro p hp
      cases hlk : lookupKey ms p.1 with
      | none =>
        have := hin p hp
        rw [hlk] at this
        cases this
      | some m => simp [hlk]
    rw [List.filterMap_congr hcongr]
    exact filterMap_some_eq_map _ cur
  refine ⟨?_, ?_, ?_⟩
  · simp only []
    rw [hadded, List.append_nil, hkept]
  · intro rid hmem
    simp only [] at hmem
    rw [hevs1, List.nil_append, addNew_events] at hmem
    obtain ⟨p, _, hpe⟩ := List.mem_map.mp hmem
    cases hpe
  · intro cn hmem
    simp only [] at hmem
    rw [hevs1, List.nil_append, addNew_events] at hmem
    obtain ⟨p, hp, hpe⟩ := List.mem_map.mp hmem
    injection hpe with hpe1 hpe2
    rw [hallfail p hp] at hpe2
    cases hpe2

end KubeSync

namespace KubeSync

/-- C6 (counterexample): a buffer holds one valid context whose cluster
construction fails. The first pass leaves the map empty; reconciling the
identical buffer a second time performs another cluster construction
attempt (`new Cluster(model)`, failing again) — so the second pass is
not free of connection constructions as the claim states. -/
theorem c6_second_pass_reconstructs_counterexample :
    (computeDiff (fun _ => false) (Buffer.wellFormed [⟨"a", true⟩])
        [] "c.yaml" 0 0).map = [] ∧
    (computeDiff (fun _ => false) (Buffer.wellFormed [⟨"a", true⟩])
        (computeDiff (fun _ => false) (Buffer.wellFormed [⟨"a", true⟩])
          [] "c.yaml" 0 0).map "c.yaml" 1 0).events =
      [Event.construct "a" false] := by
  decide

/-- C6 (amended): reconciling the identical buffer a second time leaves
every record in the map with the same identity (same names, same record
ids, in the same order, updated in place) and performs no `disconnect()`
call and no successful connection construction; however, contexts that
were skipped on construction failure in the first pass are re-attempted
(and fail again) on the second pass, so construction attempts are not
in general absent. -/
theorem c6_second_pass_preserves_identities (apiOk : String → Bool)
    (cfgs : List KubeContext) (src : List (String × EntityRecord)) (fp : String)
    (n₁ s₁ n₂ s₂ : Nat) (hsrc : (keysOf src).Nodup) :
    ((computeDiff apiOk (Buffer.wellFormed cfgs)
        (computeDiff apiOk (Buffer.wellFormed cfgs) src fp n₁ s₁).map
        fp n₂ s₂).map.map (fun p => (p.1, p.2.recordId)) =
      (computeDiff apiOk (Buffer.wellFormed cfgs) src fp n₁ s₁).map.map
        (fun p => (p.1, p.2.recordId))) ∧
    (∀ rid, Event.disconnect rid ∉
      (computeDiff apiOk (Buffer.wellFormed cfgs)
        (computeDiff apiOk (Buffer.wellFormed cfgs) src fp n₁ s₁).map
        fp n₂ s₂).events) ∧
    (∀ cn, Event.construct cn true ∉
      (computeDiff apiOk (Buffer.wellFormed cfgs)
        (computeDiff apiOk (Buffer.wellFormed cfgs) src fp n₁ s₁).map
        fp n₂ s₂).events) := by
  apply computeDiff_stable
  · exact computeDiff_nodup_keys apiOk cfgs src fp n₁ s₁ hsrc
  · intro x hx
    exact ((computeDiff_mem_keys apiOk cfgs src fp n₁ s₁ hsrc x).mp hx).1
  · intro x hxval hxnot
    cases hapi : apiOk x with
    | false => rfl
    | true =>
      exact absurd ((computeDiff_mem_keys apiOk cfgs src fp n₁ s₁ hsrc x).mpr
        ⟨hxval, Or.inr hapi⟩) hxnot

/-- C6 (witness): a concrete buffer with one constructible context — the
second pass keeps the single record's identity and emits neither
disconnects nor successful constructions. -/
theorem c6_second_pass_preserves_identities_witness :
    (keysOf ([] : List (String × EntityRecord))).Nodup ∧
    ((computeDiff (fun _ => true) (Buffer.wellFormed [⟨"a", true⟩])
        (computeDiff (fun _ => true) (Buffer.wellFormed [⟨"a", true⟩])
          [] "c.yaml" 0 0).map "c.yaml" 1 7).map.map
      (fun p => (p.1, p.2.recordId)) =
      (computeDiff (fun _ => true) (Buffer.wellFormed [⟨"a", true⟩])
        [] "c.yaml" 0 0).map.map (fun p => (p.1, p.2.recordId))) ∧
    Event.disconnect 0 ∉
      (computeDiff (fun _ => true) (Buffer.wellFormed [⟨"a", true⟩])
        (computeDiff (fun _ => true) (Buffer.wellFormed [⟨"a", true⟩])
          [] "c.yaml" 0 0).map "c.yaml" 1 7).events :=
  ⟨by decide,
   (c6_second_pass_preserves_identities (fun _ => true) [⟨"a", true⟩] []
     "c.yaml" 0 0 1 7 (by decide)).1,
   (c6_second_pass_preserves_identities (fun _ => true) [⟨"a", true⟩] []
     "c.yaml" 0 0 1 7 (by decide)).2.1 0⟩

end KubeSync
